import Mathlib

/-!
Verification of the gitdigest ingestion pipeline.

This file gives a shallow embedding of the ingestion pipeline of the
gitdigest repository (URL parsing, pattern filtering, tree building,
content aggregation, token-count formatting, and the HTTP error
classification of the server routes) and proves or refutes the frozen
claims about it.

Conventions used throughout:
* JavaScript strings are Lean `String`s; `String.prototype.includes`,
  `startsWith`, `split`, `join`, `repeat` are re-implemented below on
  `List Char` so that every definition is structurally recursive and
  kernel-evaluable.
* `localeCompare`-based ordering is modelled as the code-point order on
  strings (Lean's `String` linear order); `Array.prototype.sort` (stable)
  is modelled by `List.insertionSort`, which coincides with any stable
  sort here because ties of the comparator are equal entries.
* Optional arrays (`includePatterns?`) are plain lists: `undefined` and
  `[]` behave identically in the source (`xs?.length` is falsy for both).
* Network and filesystem effects (fetch results, decode results, the
  `ignore` npm package) enter the model as explicit parameters.
-/

/-! ## JavaScript string primitives, modelled on `List Char` -/

/-- Does the first list start with the second?  Model of
`String.prototype.startsWith` on character lists. -/
def leadsWith : List Char → List Char → Bool
  | _, [] => true
  | [], _ :: _ => false
  | a :: s, b :: p => a = b && leadsWith s p

/-- Does the first list contain the second as a contiguous run?  Model of
`String.prototype.includes` on character lists. -/
def containsRun : List Char → List Char → Bool
  | [], pat => pat.isEmpty
  | s@(_ :: rest), pat => leadsWith s pat || containsRun rest pat

/-- Model of JavaScript `s.startsWith(p)`. -/
def strStartsWith (s p : String) : Bool := leadsWith s.data p.data

/-- Model of JavaScript `s.includes(p)` (case-sensitive substring test). -/
def strIncludes (s p : String) : Bool := containsRun s.data p.data

/-- Model of JavaScript `s.endsWith(p)`. -/
def strEndsWith (s p : String) : Bool := leadsWith s.data.reverse p.data.reverse

/-- Helper for `jsSplit`: split a character list at a separator,
accumulating the current segment (in reverse). -/
def splitCharsAux (sep : Char) : List Char → List Char → List String
  | [], acc => [String.mk acc.reverse]
  | c :: rest, acc =>
    if c = sep then String.mk acc.reverse :: splitCharsAux sep rest []
    else splitCharsAux sep rest (c :: acc)

/-- Model of JavaScript `s.split(sep)` for a single-character separator.
`jsSplit "" '/' = [""]`, `jsSplit "a/b" '/' = ["a", "b"]`. -/
def jsSplit (s : String) (sep : Char) : List String := splitCharsAux sep s.data []

/-- Model of JavaScript `parts.join(sep)`. -/
def joinWith (sep : String) : List String → String
  | [] => ""
  | [s] => s
  | s :: rest => s ++ sep ++ joinWith sep rest

/-- Model of JavaScript `s.repeat(n)`. -/
def repeatStr (s : String) : Nat → String
  | 0 => ""
  | n + 1 => s ++ repeatStr s n

/-- Strip a trailing `".git"` (model of `repo.replace(/\.git$/, '')`). -/
def stripDotGit (s : String) : String :=
  if strEndsWith s ".git" then String.mk (s.data.take (s.data.length - 4)) else s

/-! ## Glob matching (`src/lib/ingest.ts` lines 146-156)

`matchPattern` builds a regex from the pattern by escaping `.`, turning
`*` into `.*` and `?` into `.`, anchoring it with `^...$`, and accepts a
path when the regex matches it or when the path contains the pattern with
all `*` removed as a substring.  The anchored regex is modelled by
`globFull` below: `*` matches any run of characters, `?` any single
character, everything else is literal.  (This is exact for patterns that
contain no regex metacharacters other than `.`, `*`, `?` — which covers
every pattern in the default-ignore list.) -/

/-- Try `m` on every suffix of the character list (the effect of a leading
`.*` in an anchored regex). -/
def globStar (m : List Char → Bool) : List Char → Bool
  | [] => m []
  | s@(_ :: rest) => m s || globStar m rest

/-- Anchored glob matching: first argument is the pattern, second the
string to match in full. -/
def globFull : List Char → List Char → Bool
  | [], s => s.isEmpty
  | c :: ps, s =>
    if c = '*' then globStar (globFull ps) s
    else
      match s with
      | [] => false
      | a :: s' => (c = '?' || c = a) && globFull ps s'

/-- Remove every `*` from a pattern (model of `pattern.replace(/\*/g, '')`). -/
def stripStars (p : String) : String := String.mk (p.data.filter (fun c => c ≠ '*'))

/-- Model of `matchPattern` from `src/lib/ingest.ts` (lines 146-156): the
anchored glob regex matches the whole path, or the path contains the
wildcard-stripped pattern as a substring. -/
def matchPattern (path pattern : String) : Bool :=
  globFull pattern.data path.data || strIncludes path (stripStars pattern)

/-- `DEFAULT_IGNORE_PATTERNS` from `src/lib/ingest.ts` lines 8-33 (the
same list appears in every acquisition strategy). -/
def DEFAULT_IGNORE_PATTERNS : List String :=
  [".git", "node_modules", "__pycache__", ".pytest_cache", ".next", ".vscode",
   ".idea", "dist", "build", "*.pyc", "*.log", ".DS_Store", "*.svg", "*.png",
   "*.jpg", "*.jpeg", "*.gif", "*.ico", "*.pdf", "package-lock.json",
   "yarn.lock", ".pnpm-store", "bun.lock", "poetry.lock"]

/-- Model of `shouldIncludeFile` from `src/lib/ingest.ts` (lines 117-144):
default-ignore patterns are checked first, then user excludes, then user
includes (a nonempty include list requires at least one match). -/
def shouldIncludeFile (path : String)
    (includePatterns excludePatterns : List String) : Bool :=
  if DEFAULT_IGNORE_PATTERNS.any (fun p => matchPattern path p) then false
  else if excludePatterns.any (fun p => matchPattern path p) then false
  else if includePatterns.isEmpty then true
  else includePatterns.any (fun p => matchPattern path p)

/-! ## Token-count formatting (`src/lib/git.ts` lines 65-83) -/

/-- Model of JavaScript `(n / d).toFixed(1)` for natural `n`, `d > 0`,
computed on exact rationals with ties rounded up (the `toFixed`
tie-breaking rule; double rounding of exact ties may differ in JS for
inputs whose quotient is not representable, which does not affect the
inputs below). -/
def toFixed1 (n d : Nat) : String :=
  let m := (n * 10 + d / 2) / d
  toString (m / 10) ++ "." ++ toString (m % 10)

/-- Model of the formatting done by `estimateTokens` in `src/lib/git.ts`
(lines 65-83) on the token count returned by the tokenizer: plain integer
under 1000, `⟨1dp⟩k` from 1000, `⟨1dp⟩M` from 1000000. -/
def formatTokenCount (n : Nat) : String :=
  if n ≥ 1000000 then toFixed1 n 1000000 ++ "M"
  else if n ≥ 1000 then toFixed1 n 1000 ++ "k"
  else toString n

/-! ## URL resolver (`src/lib/ingest.ts` lines 58-115)

The WHATWG `URL` parsing that extracts `hostname` and `pathname` is
external; the model starts from the segment list
`pathname.split('/').filter(Boolean)` computed by line 89 and follows
lines 91-114 exactly. -/

structure ParsedRepo where
  host : String
  owner : String
  repo : String
  branch : Option String
  path : Option String
deriving DecidableEq, Repr

/-- Model of `parseGitUrl` from `src/lib/ingest.ts` (lines 91-114), from
the filtered path-segment list onward: fewer than two segments fail; the
first two are owner and repo (repo stripped of a `.git` suffix); if the
third segment is `tree`, `blob` or `-`, the fourth is the branch and the
remaining segments joined by `/` are the subpath. -/
def parsePathParts (host : String) (pathParts : List String) : Option ParsedRepo :=
  match pathParts with
  | owner :: repo :: rest =>
    let base : ParsedRepo := ⟨host, owner, stripDotGit repo, none, none⟩
    some (match rest with
      | [] => base
      | t :: rest' =>
        if t = "tree" || t = "blob" || t = "-" then
          { base with
            branch := rest'.head?,
            path := if rest'.length > 1 then some (joinWith "/" (rest'.drop 1)) else none }
        else base)
  | _ => none

/-! ## String ordering (model of `localeCompare`)

`a.path.localeCompare(b.path)` is locale-dependent; it is modelled here by
the code-point lexicographic order on the character sequences, implemented
as a Bool-valued `≤` so that every use is kernel-evaluable. -/

/-- Code-point lexicographic `≤` on character lists. -/
def lexLe : List Char → List Char → Bool
  | [], _ => true
  | _ :: _, [] => false
  | a :: s, b :: t =>
    if a.toNat = b.toNat then lexLe s t else decide (a.toNat < b.toNat)

/-- Model of `a.localeCompare(b) <= 0` as code-point order. -/
def strLe (s t : String) : Bool := lexLe s.data t.data

theorem char_eq_of_toNat_eq {a b : Char} (h : a.toNat = b.toNat) : a = b :=
  Char.eq_of_val_eq (UInt32.toNat.inj h)

theorem lexLe_total : ∀ s t : List Char, lexLe s t = true ∨ lexLe t s = true
  | [], _ => Or.inl rfl
  | _ :: _, [] => Or.inr rfl
  | a :: s, b :: t => by
    by_cases h : a.toNat = b.toNat
    · rcases lexLe_total s t with hl | hr
      · left; simp [lexLe, h, hl]
      · right; simp [lexLe, h.symm, hr]
    · rcases Nat.lt_or_ge a.toNat b.toNat with hl | hg
      · left; simp [lexLe, h, hl]
      · have hne : b.toNat ≠ a.toNat := fun e => h e.symm
        have hlt : b.toNat < a.toNat := Nat.lt_of_le_of_ne hg hne
        right; simp [lexLe, hne, hlt]

theorem lexLe_trans :
    ∀ s t u : List Char, lexLe s t = true → lexLe t u = true → lexLe s u = true
  | [], _, _, _, _ => rfl
  | a :: s, [], u, hab, _ => by simp [lexLe] at hab
  | a :: s, b :: t, [], _, hbc => by simp [lexLe] at hbc
  | a :: s, b :: t, c :: u, hab, hbc => by
    by_cases h1 : a.toNat = b.toNat <;> by_cases h2 : b.toNat = c.toNat
    · simp only [lexLe, if_pos h1] at hab
      simp only [lexLe, if_pos h2] at hbc
      simp [lexLe, h1.trans h2, lexLe_trans s t u hab hbc]
    · simp only [lexLe, if_neg h2, decide_eq_true_eq] at hbc
      have : a.toNat < c.toNat := h1 ▸ hbc
      simp [lexLe, Nat.ne_of_lt this, this]
    · simp only [lexLe, if_neg h1, decide_eq_true_eq] at hab
      have : a.toNat < c.toNat := h2 ▸ hab
      simp [lexLe, Nat.ne_of_lt this, this]
    · simp only [lexLe, if_neg h1, decide_eq_true_eq] at hab
      simp only [lexLe, if_neg h2, decide_eq_true_eq] at hbc
      have : a.toNat < c.toNat := Nat.lt_trans hab hbc
      simp [lexLe, Nat.ne_of_lt this, this]

theorem lexLe_antisymm :
    ∀ s t : List Char, lexLe s t = true → lexLe t s = true → s = t
  | [], [], _, _ => rfl
  | [], _ :: _, _, hba => by simp [lexLe] at hba
  | _ :: _, [], hab, _ => by simp [lexLe] at hab
  | a :: s, b :: t, hab, hba => by
    by_cases h : a.toNat = b.toNat
    · simp only [lexLe, if_pos h] at hab
      simp only [lexLe, if_pos h.symm] at hba
      rw [char_eq_of_toNat_eq h, lexLe_antisymm s t hab hba]
    · simp only [lexLe, if_neg h, decide_eq_true_eq] at hab
      have hne : b.toNat ≠ a.toNat := fun e => h e.symm
      simp only [lexLe, if_neg hne, decide_eq_true_eq] at hba
      exact absurd hba (Nat.lt_asymm hab)

theorem str_eq_of_data_eq {s t : String} (h : s.data = t.data) : s = t := by
  cases s; cases t; exact congrArg String.mk h

/-- The proposition form of `strLe`, used as the sorting relation on
plain path strings. -/
def pathLe (s t : String) : Prop := strLe s t = true

instance : DecidableRel pathLe := fun s t => by unfold pathLe; infer_instance

instance : IsTotal String pathLe := ⟨fun a b => lexLe_total a.data b.data⟩

instance : IsTrans String pathLe :=
  ⟨fun a b c hab hbc => lexLe_trans a.data b.data c.data hab hbc⟩

instance : IsAntisymm String pathLe :=
  ⟨fun a b hab hba => str_eq_of_data_eq (lexLe_antisymm a.data b.data hab hba)⟩

/-! ## Tree builder (`generateTree`, `src/lib/ingest.ts` lines 158-180;
the identical copy sits in `src/app/api/ingest/route.ts` lines 396-418) -/

structure TreeEntry where
  path : String
  isDirectory : Bool
deriving DecidableEq, Repr

/-- The sort comparator of `generateTree` (lines 164-169): when the kinds
differ a directory comes first, otherwise `localeCompare` on the paths. -/
def entryLEb (a b : TreeEntry) : Bool :=
  if a.isDirectory = b.isDirectory then strLe a.path b.path else a.isDirectory

def entryLE (a b : TreeEntry) : Prop := entryLEb a b = true

instance : DecidableRel entryLE := fun a b => by unfold entryLE; infer_instance

instance : IsTotal TreeEntry entryLE :=
  ⟨fun a b => by
    unfold entryLE entryLEb
    by_cases h : a.isDirectory = b.isDirectory
    · rw [if_pos h, if_pos h.symm]
      exact lexLe_total a.path.data b.path.data
    · rw [if_neg h, if_neg (fun e => h e.symm)]
      cases ha : a.isDirectory <;> cases hb : b.isDirectory <;> simp_all⟩

instance : IsTrans TreeEntry entryLE :=
  ⟨fun a b c hab hbc => by
    unfold entryLE entryLEb at *
    cases ha : a.isDirectory <;> cases hb : b.isDirectory <;> cases hc : c.isDirectory <;>
      simp_all <;> exact lexLe_trans _ _ _ hab hbc⟩

instance : IsAntisymm TreeEntry entryLE :=
  ⟨fun a b hab hba => by
    unfold entryLE entryLEb at *
    cases a with
    | mk pa da =>
      cases b with
      | mk pb db =>
        cases da <;> cases db <;> simp_all <;>
          exact str_eq_of_data_eq (lexLe_antisymm _ _ hab hba)⟩

/-- Model of `[...files].sort(comparator)` (a stable sort; insertion sort
gives the same result because the comparator is antisymmetric). -/
def sortEntries (files : List TreeEntry) : List TreeEntry :=
  List.insertionSort entryLE files

/-- Model of JavaScript `path.split('/').pop() || path`. -/
def lastSegment (path : String) : String :=
  match (jsSplit path '/').getLast? with
  | some s => if s = "" then path else s
  | none => path

/-- One rendered entry line of `generateTree` (lines 171-177):
`'    '.repeat(depth)` with `depth = path.split('/').length`, then
`├── `, the last path segment, and `/` for directories. -/
def treeLineOf (e : TreeEntry) : String :=
  repeatStr "    " (jsSplit e.path '/').length ++ "├── " ++ lastSegment e.path ++
    (if e.isDirectory then "/" else "")

/-- The `lines` array built by `generateTree` before joining. -/
def treeLines (files : List TreeEntry) (repoName : String) : List String :=
  "Directory structure:" :: ("└── " ++ repoName ++ "/") ::
    (sortEntries files).map treeLineOf

/-- Model of `generateTree` (lines 158-180). -/
def generateTree (files : List TreeEntry) (repoName : String) : String :=
  joinWith "\n" (treeLines files repoName)

/-- Number of occurrences of a separator character in a string. -/
def countSep (s : String) (sep : Char) : Nat :=
  (s.data.filter (fun c => c = sep)).length

theorem splitCharsAux_length (sep : Char) :
    ∀ (cs acc : List Char),
      (splitCharsAux sep cs acc).length = (cs.filter (fun c => c = sep)).length + 1
  | [], _ => rfl
  | c :: rest, acc => by
    by_cases h : c = sep
    · simp [splitCharsAux, h, List.filter, splitCharsAux_length sep rest []]
    · simp [splitCharsAux, h, List.filter, splitCharsAux_length sep rest (c :: acc)]

/-- The segment count of a split equals the separator count plus one. -/
theorem jsSplit_length (s : String) (sep : Char) :
    (jsSplit s sep).length = countSep s sep + 1 :=
  splitCharsAux_length sep s.data []

/-- Claim C2 (corrected statement): `buildTree` renders a header line,
a root line `└── <rootLabel>/`, and one line per sorted entry prefixed
`├── ` and suffixed `/` for directories — but the indent is 4 spaces
times (number of path separators + 1), i.e. times the number of path
segments, not times the separator count: a top-level entry is indented
4 spaces, not 0. -/
theorem c2_tree_line_format (entries : List TreeEntry) (root : String) :
    treeLines entries root =
      "Directory structure:" :: ("└── " ++ root ++ "/") ::
        (sortEntries entries).map (fun e =>
          repeatStr "    " (countSep e.path '/' + 1) ++ "├── " ++ lastSegment e.path ++
            (if e.isDirectory then "/" else "")) := by
  unfold treeLines
  congr 1
  congr 1
  apply List.map_congr_left
  intro e _
  unfold treeLineOf
  rw [jsSplit_length]

/-- Claim C2 counterexample: the single top-level file `a` is rendered
with a 4-space indent, not the 0-space indent the claim predicts. -/
theorem c2_counterexample :
    treeLines [⟨"a", false⟩] "r" = ["Directory structure:", "└── r/", "    ├── a"] ∧
      ("    ├── a" : String) ≠ "├── a" := by
  constructor
  · rfl
  · decide

/-- Claim C8: the entries rendered by the tree builder are sorted so that
every directory precedes every file (in particular at the same directory
level), and two consecutive entries of the same kind are in `localeCompare`
order (modelled as code-point order) of their full relative paths; the
sorted list is a permutation of the input. -/
theorem c8_tree_entry_ordering (entries : List TreeEntry) :
    (sortEntries entries).Perm entries ∧
      List.Pairwise (fun a b =>
        (a.isDirectory = true ∧ b.isDirectory = false) ∨
          (a.isDirectory = b.isDirectory ∧ strLe a.path b.path = true))
        (sortEntries entries) := by
  refine ⟨List.perm_insertionSort entryLE entries, ?_⟩
  have h := List.sorted_insertionSort entryLE entries
  refine h.imp ?_
  intro a b hab
  unfold entryLE entryLEb at hab
  by_cases hd : a.isDirectory = b.isDirectory
  · rw [if_pos hd] at hab
    exact Or.inr ⟨hd, hab⟩
  · rw [if_neg hd] at hab
    refine Or.inl ⟨hab, ?_⟩
    cases hb : b.isDirectory
    · rfl
    · exact absurd (hab.trans hb.symm) hd

/-- Claim C3: if a path matches any default-ignore pattern then
`shouldIncludeFile` returns `false`, whatever the user's include and
exclude patterns are — the default list is checked first and its match
returns immediately, so include patterns cannot override it. -/
theorem c3_default_ignores_win (path : String) (inc exc : List String)
    (h : DEFAULT_IGNORE_PATTERNS.any (fun p => matchPattern path p) = true) :
    shouldIncludeFile path inc exc = false := by
  unfold shouldIncludeFile
  rw [if_pos h]

/-- Claim C3 witness: `node_modules/x.js` matches the default-ignore
entry `node_modules`, and is rejected even though the include list
contains the exact path. -/
theorem c3_witness :
    DEFAULT_IGNORE_PATTERNS.any (fun p => matchPattern "node_modules/x.js" p) = true ∧
      shouldIncludeFile "node_modules/x.js" ["node_modules/x.js"] [] = false :=
  ⟨by decide, c3_default_ignores_win "node_modules/x.js" ["node_modules/x.js"] [] (by decide)⟩

theorem strIncludes_empty (s : String) : strIncludes s "" = true := by
  unfold strIncludes containsRun
  cases s.data with
  | nil => rfl
  | cons a rest => rfl

/-- Claim C10: a pattern whose wildcard-stripped form is empty (such as
`*` or `**`) makes `matchPattern` accept every path via the substring
fallback (every string contains the empty string), so such a pattern in
the exclude list makes `shouldIncludeFile` reject every path. -/
theorem c10_empty_stripped_pattern_matches_all (pattern : String)
    (h : stripStars pattern = "") :
    (∀ path, matchPattern path pattern = true) ∧
      (∀ path inc exc, pattern ∈ exc → shouldIncludeFile path inc exc = false) := by
  have hm : ∀ path, matchPattern path pattern = true := by
    intro path
    unfold matchPattern
    rw [h, strIncludes_empty, Bool.or_true]
  refine ⟨hm, ?_⟩
  intro path inc exc hmem
  unfold shouldIncludeFile
  by_cases hdef : DEFAULT_IGNORE_PATTERNS.any (fun p => matchPattern path p) = true
  · rw [if_pos hdef]
  · rw [if_neg hdef, if_pos (List.any_eq_true.mpr ⟨pattern, hmem, hm path⟩)]

/-- Claim C10 witness: the exclude pattern `*` matches `src/main.ts` and
excludes it. -/
theorem c10_witness :
    stripStars "*" = "" ∧ matchPattern "src/main.ts" "*" = true ∧
      shouldIncludeFile "src/main.ts" [] ["*"] = false :=
  ⟨by decide,
   (c10_empty_stripped_pattern_matches_all "*" (by decide)).1 "src/main.ts",
   (c10_empty_stripped_pattern_matches_all "*" (by decide)).2 "src/main.ts" [] ["*"]
     (by decide)⟩

/-- Claim C9: the token-count formatting of `estimateTokens` — plain
integer below 1000, quotient by 1000 to one decimal place plus `k` for
1000 ≤ n < 1000000, quotient by 1000000 to one decimal place plus `M`
from 1000000 on; in particular 500 → "500", 1500 → "1.5k",
2500000 → "2.5M". -/
theorem c9_token_format :
    (∀ n, n < 1000 → formatTokenCount n = toString n) ∧
      (∀ n, 1000 ≤ n → n < 1000000 → formatTokenCount n = toFixed1 n 1000 ++ "k") ∧
      (∀ n, 1000000 ≤ n → formatTokenCount n = toFixed1 n 1000000 ++ "M") ∧
      formatTokenCount 500 = "500" ∧ formatTokenCount 1500 = "1.5k" ∧
      formatTokenCount 2500000 = "2.5M" := by
  refine ⟨?_, ?_, ?_, by decide, by decide, by decide⟩
  · intro n h
    unfold formatTokenCount
    rw [if_neg (by omega), if_neg (by omega)]
  · intro n h1 h2
    unfold formatTokenCount
    rw [if_neg (by omega), if_pos (by omega)]
  · intro n h
    unfold formatTokenCount
    rw [if_pos (by omega)]

/-- Claim C9 witness: the three range cases instantiated at 500, 1500 and
2500000. -/
theorem c9_witness :
    formatTokenCount 500 = toString 500 ∧
      formatTokenCount 1500 = toFixed1 1500 1000 ++ "k" ∧
      formatTokenCount 2500000 = toFixed1 2500000 1000000 ++ "M" :=
  ⟨c9_token_format.1 500 (by decide),
   c9_token_format.2.1 1500 (by decide) (by decide),
   c9_token_format.2.2.1 2500000 (by decide)⟩

/-- Claim C7: when the path segments after owner and repo are
`tree :: branch :: subpath`, the resolver returns that branch, and
rejoining branch and subpath with `/` reconstructs the original suffix
after `tree`. -/
theorem c7_tree_branch_subpath_roundtrip (host owner repo b : String)
    (sub : List String) :
    ∃ r, parsePathParts host (owner :: repo :: "tree" :: b :: sub) = some r ∧
      r.branch = some b ∧
      (match r.path with
       | some p => b ++ "/" ++ p
       | none => b) = joinWith "/" (b :: sub) := by
  cases sub with
  | nil => exact ⟨_, rfl, rfl, rfl⟩
  | cons s rest =>
    refine ⟨_, rfl, ?_, ?_⟩
    · simp [parsePathParts]
    · simp [parsePathParts, joinWith]

/-! ## Remote-API acquisition (`ingestRepository`, `src/lib/ingest.ts`
lines 182-390)

The GitHub API responses enter the model as data: the recursive tree
listing is a list of `GitTreeItem`s (path, type, size), and the raw
content fetch of step 5 is a function from path to `FetchOutcome`.
Batches of 5 concurrent fetches are concatenated in order, so the file
list is an order-preserving map of the filtered list. -/

structure IngestOptions where
  maxFileSize : Nat
  includePatterns : List String
  excludePatterns : List String
deriving DecidableEq, Repr

structure GitTreeItem where
  path : String
  type : String
  size : Nat
deriving DecidableEq, Repr

/-- JavaScript truthiness of the optional `subpath` string. -/
def truthyStr : Option String → Bool
  | none => false
  | some s => s ≠ ""

/-- The subpath as a plain string (only consulted when truthy). -/
def spStr (sp : Option String) : String := sp.getD ""

/-- The filter predicate of step 4 (lines 258-275): keep exactly the
blobs under the subpath whose size is within `maxFileSize` KB and that
pass `shouldIncludeFile`. -/
def keepFile (opts : IngestOptions) (sp : Option String) (it : GitTreeItem) : Bool :=
  it.type == "blob" &&
    !(truthyStr sp && !(strStartsWith it.path (spStr sp))) &&
    !(decide (opts.maxFileSize * 1024 < it.size)) &&
    shouldIncludeFile it.path opts.includePatterns opts.excludePatterns

/-- `filteredFiles` of step 4. -/
def filterFiles (opts : IngestOptions) (sp : Option String)
    (items : List GitTreeItem) : List GitTreeItem :=
  items.filter (keepFile opts sp)

/-- One step of the `treeList` construction (lines 280-288): directories
are kept as-is, a non-tree item is kept as a file entry exactly when some
filtered file has its path. -/
def treeListEntry (sp : Option String) (filtered : List GitTreeItem)
    (it : GitTreeItem) : Option TreeEntry :=
  if truthyStr sp && !(strStartsWith it.path (spStr sp)) then none
  else if it.type == "tree" then some ⟨it.path, true⟩
  else if filtered.any (fun f => f.path == it.path) then some ⟨it.path, false⟩
  else none

/-- The `treeList` array (lines 277-288), in API tree order. -/
def clientTreeList (sp : Option String) (filtered items : List GitTreeItem) :
    List TreeEntry :=
  items.filterMap (treeListEntry sp filtered)

/-- Outcome of one raw-content fetch in step 5. -/
inductive FetchOutcome where
  | ok (text : String)
  | httpError (statusText : String)
  | exn
deriving DecidableEq, Repr

structure ClientFileRec where
  path : String
  isDirectory : Bool
  content : String
  size : Nat
deriving DecidableEq, Repr

/-- The record pushed for one filtered file in step 5 (lines 306-338):
the response text on success, a bracketed message on an HTTP error, and
the decode-failure sentinel when the fetch throws. -/
def fetchRecord (fetch : String → FetchOutcome) (it : GitTreeItem) : ClientFileRec :=
  match fetch it.path with
  | .ok t => ⟨it.path, false, t, it.size⟩
  | .httpError st => ⟨it.path, false, "[Failed to fetch: " ++ st ++ "]", it.size⟩
  | .exn => ⟨it.path, false, "[Binary or failed to decode]", it.size⟩

/-- The `fileList` array (lines 293-347): the filtered files in order,
each with its fetched content. -/
def buildFileList (fetch : String → FetchOutcome)
    (filtered : List GitTreeItem) : List ClientFileRec :=
  filtered.map (fetchRecord fetch)

/-- `'='.repeat(48)`. -/
def SEPARATOR : String := repeatStr "=" 48

/-- The `contentParts` array (lines 355-366): five parts per file, but
only for records that are files with truthy (nonempty) content. -/
def contentParts : List ClientFileRec → List String
  | [] => []
  | f :: rest =>
    (if !f.isDirectory && f.content != "" then
      [SEPARATOR, "File: " ++ f.path, SEPARATOR, f.content, ""]
    else []) ++ contentParts rest

/-- The `content` string (line 367). -/
def clientContent (files : List ClientFileRec) : String :=
  joinWith "\n" (contentParts files)

/-- The path named by the `File: <path>` header of each emitted content
block, in emission order. -/
def contentPaths : List ClientFileRec → List String
  | [] => []
  | f :: rest =>
    (if !f.isDirectory && f.content != "" then [f.path] else []) ++ contentPaths rest

/-- The file entries of the rendered tree, in rendering order: the sorted
entry list restricted to non-directories. -/
def treeFileEntries (l : List TreeEntry) : List TreeEntry :=
  (sortEntries l).filter (fun e => !e.isDirectory)

/-- Sorting plain path strings by the comparator's string order. -/
def sortStrings (l : List String) : List String := List.insertionSort pathLe l

/-- Each emitted content block names the corresponding entry of
`contentPaths`: blocks and paths are drawn from the same filtered
sublist, in the same order. -/
theorem contentParts_blocks (files : List ClientFileRec) :
    contentParts files =
      ((files.filter (fun f => !f.isDirectory && f.content != "")).map
        (fun f => [SEPARATOR, "File: " ++ f.path, SEPARATOR, f.content, ""])).flatten ∧
      contentPaths files =
        (files.filter (fun f => !f.isDirectory && f.content != "")).map
          (fun f => f.path) := by
  induction files with
  | nil => exact ⟨rfl, rfl⟩
  | cons f rest ih =>
    refine ⟨?_, ?_⟩ <;>
      by_cases h : (!f.isDirectory && f.content != "") = true <;>
        simp [contentParts, contentPaths, List.filter_cons, h, ih.1, ih.2]

/-- The condition under which `treeListEntry` yields a file entry. -/
def fileCond (sp : Option String) (filtered : List GitTreeItem)
    (it : GitTreeItem) : Bool :=
  !(truthyStr sp && !(strStartsWith it.path (spStr sp))) &&
    !(it.type == "tree") && filtered.any (fun f => f.path == it.path)

theorem fetchRecord_path (fetch : String → FetchOutcome) (it : GitTreeItem) :
    (fetchRecord fetch it).path = it.path := by
  unfold fetchRecord; cases fetch it.path <;> rfl

theorem fetchRecord_isDir (fetch : String → FetchOutcome) (it : GitTreeItem) :
    (fetchRecord fetch it).isDirectory = false := by
  unfold fetchRecord; cases fetch it.path <;> rfl

/-- The file entries of the raw `treeList` are exactly the items passing
`fileCond`, in tree order. -/
theorem treeList_filter_files (sp : Option String) (F : List GitTreeItem) :
    ∀ items : List GitTreeItem,
      (clientTreeList sp F items).filter (fun e => !e.isDirectory) =
        (items.filter (fileCond sp F)).map (fun it => (⟨it.path, false⟩ : TreeEntry))
  | [] => rfl
  | it :: rest => by
    have ih := treeList_filter_files sp F rest
    unfold clientTreeList at ih ⊢
    rw [List.filterMap_cons, List.filter_cons]
    by_cases h1 : (truthyStr sp && !(strStartsWith it.path (spStr sp))) = true
    · simp [treeListEntry, fileCond, h1, ih]
    · by_cases h2 : (it.type == "tree") = true
      · simp [treeListEntry, fileCond, h1, h2, ih]
      · by_cases h3 : (F.any (fun f => f.path == it.path)) = true
        · simp [treeListEntry, fileCond, h1, h2, h3, ih]
        · simp [treeListEntry, fileCond, h1, h2, h3, ih]

/-- With pairwise-distinct paths, the file condition realized by the
`treeList` construction agrees with the step-4 filter on every item of
the listing. -/
theorem fileCond_eq_keepFile (opts : IngestOptions) (sp : Option String)
    {items : List GitTreeItem}
    (hnd : (items.map (fun it => it.path)).Nodup) :
    ∀ it ∈ items,
      fileCond sp (filterFiles opts sp items) it = keepFile opts sp it := by
  intro it hit
  have hinj := List.inj_on_of_nodup_map hnd
  by_cases hk : keepFile opts sp it = true
  · rw [hk]
    have hmem : it ∈ filterFiles opts sp items := List.mem_filter.mpr ⟨hit, hk⟩
    unfold keepFile at hk
    simp only [Bool.and_eq_true, beq_iff_eq] at hk
    unfold fileCond
    simp only [Bool.and_eq_true]
    refine ⟨⟨hk.1.1.2, ?_⟩, ?_⟩
    · rw [hk.1.1.1]; rfl
    · exact List.any_eq_true.mpr ⟨it, hmem, by simp⟩
  · have hkf : keepFile opts sp it = false := by
      cases hkk : keepFile opts sp it
      · rfl
      · exact absurd hkk hk
    rw [hkf]
    cases hf : fileCond sp (filterFiles opts sp items) it
    · rfl
    · exfalso
      unfold fileCond at hf
      simp only [Bool.and_eq_true, List.any_eq_true, beq_iff_eq] at hf
      obtain ⟨⟨-, -⟩, f, hfF, hfp⟩ := hf
      have hfi : f ∈ items := (List.mem_filter.mp hfF).1
      have hfe : f = it := hinj hfi hit hfp
      subst hfe
      exact hk (List.mem_filter.mp hfF).2

theorem filter_fileCond (opts : IngestOptions) (sp : Option String)
    {items : List GitTreeItem}
    (hnd : (items.map (fun it => it.path)).Nodup) :
    items.filter (fileCond sp (filterFiles opts sp items)) =
      filterFiles opts sp items :=
  List.filter_congr (fileCond_eq_keepFile opts sp hnd)

/-- The rendered tree's file entries are the filtered files' paths in
sorted order. -/
theorem treeFilePaths_sorted (opts : IngestOptions) (sp : Option String)
    {items : List GitTreeItem}
    (hnd : (items.map (fun it => it.path)).Nodup) :
    (treeFileEntries (clientTreeList sp (filterFiles opts sp items) items)).map
        (fun e => e.path) =
      sortStrings ((filterFiles opts sp items).map (fun it => it.path)) := by
  have hsorted : List.Sorted entryLE
      (sortEntries (clientTreeList sp (filterFiles opts sp items) items)) :=
    List.sorted_insertionSort entryLE _
  have hsf : List.Sorted entryLE
      (treeFileEntries (clientTreeList sp (filterFiles opts sp items) items)) :=
    List.Sorted.filter _ hsorted
  have hmemq : ∀ e ∈ treeFileEntries (clientTreeList sp (filterFiles opts sp items) items),
      e.isDirectory = false := by
    intro e he
    have h2 := (List.mem_filter.mp he).2
    simpa using h2
  have hpw : List.Pairwise (fun a b : TreeEntry => pathLe a.path b.path)
      (treeFileEntries (clientTreeList sp (filterFiles opts sp items) items)) := by
    refine List.Pairwise.imp_of_mem ?_ hsf
    intro a b ha hb hab
    unfold entryLE entryLEb at hab
    rw [if_pos ((hmemq a ha).trans (hmemq b hb).symm)] at hab
    exact hab
  have hlhs_sorted : List.Pairwise pathLe
      ((treeFileEntries (clientTreeList sp (filterFiles opts sp items) items)).map
        (fun e => e.path)) :=
    List.pairwise_map.mpr hpw
  have hperm1 : (treeFileEntries (clientTreeList sp (filterFiles opts sp items) items)).Perm
      ((clientTreeList sp (filterFiles opts sp items) items).filter
        (fun e => !e.isDirectory)) :=
    List.Perm.filter _ (List.perm_insertionSort entryLE _)
  have heq : (clientTreeList sp (filterFiles opts sp items) items).filter
        (fun e => !e.isDirectory) =
      (filterFiles opts sp items).map (fun it => (⟨it.path, false⟩ : TreeEntry)) := by
    rw [treeList_filter_files, filter_fileCond opts sp hnd]
  have hperm2 : ((treeFileEntries (clientTreeList sp (filterFiles opts sp items) items)).map
      (fun e => e.path)).Perm ((filterFiles opts sp items).map (fun it => it.path)) := by
    have hmapped := hperm1.map (fun e => e.path)
    rw [heq] at hmapped
    simpa [List.map_map] using hmapped
  have hrs : List.Pairwise pathLe (sortStrings ((filterFiles opts sp items).map
      (fun it => it.path))) :=
    List.sorted_insertionSort pathLe _
  have hrp : (sortStrings ((filterFiles opts sp items).map (fun it => it.path))).Perm
      ((filterFiles opts sp items).map (fun it => it.path)) :=
    List.perm_insertionSort pathLe _
  exact List.eq_of_perm_of_sorted (hperm2.trans hrp.symm) hlhs_sorted hrs

/-- When every fetched content is nonempty, the emitted blocks name the
filtered files in order. -/
theorem contentPaths_of_nonempty (fetch : String → FetchOutcome) :
    ∀ F : List GitTreeItem,
      (∀ it ∈ F, (fetchRecord fetch it).content ≠ "") →
      contentPaths (buildFileList fetch F) = F.map (fun it => it.path)
  | [], _ => rfl
  | it :: rest, h => by
    have ih := contentPaths_of_nonempty fetch rest
      (fun x hx => h x (List.mem_cons_of_mem it hx))
    have hc : (fetchRecord fetch it).content ≠ "" := h it (List.mem_cons_self it rest)
    unfold buildFileList at ih ⊢
    rw [List.map_cons, List.map_cons]
    unfold contentPaths
    rw [fetchRecord_path]
    simp [fetchRecord_isDir, bne, hc, ih]

/-- Claim C1 (corrected statement): the emitted content blocks name
exactly the filtered files in acquisition (API tree) order, while the
tree's file lines carry the same paths in sorted order; the i-th block
matches the i-th tree file line only when the filtered list is already
sorted, not for every input. -/
theorem c1_content_order (opts : IngestOptions) (sp : Option String)
    (fetch : String → FetchOutcome) (items : List GitTreeItem)
    (hnd : (items.map (fun it => it.path)).Nodup)
    (hne : ∀ it ∈ filterFiles opts sp items, (fetchRecord fetch it).content ≠ "") :
    contentPaths (buildFileList fetch (filterFiles opts sp items)) =
        (filterFiles opts sp items).map (fun it => it.path) ∧
      (treeFileEntries (clientTreeList sp (filterFiles opts sp items) items)).map
          (fun e => e.path) =
        sortStrings ((filterFiles opts sp items).map (fun it => it.path)) :=
  ⟨contentPaths_of_nonempty fetch _ hne, treeFilePaths_sorted opts sp hnd⟩

/-- Claim C1 counterexample: for the listing `[b, a]` (two top-level
blobs, both passing every filter, both fetched with nonempty text) the
content blocks name `b` then `a` while the tree's file lines name `a`
then `b` — already the first block and the first file line disagree. -/
theorem c1_counterexample :
    contentPaths (buildFileList (fun _ => FetchOutcome.ok "x")
        (filterFiles ⟨1, [], []⟩ none
          [⟨"b", "blob", 1⟩, ⟨"a", "blob", 1⟩])) = ["b", "a"] ∧
      (treeFileEntries (clientTreeList none
          (filterFiles ⟨1, [], []⟩ none [⟨"b", "blob", 1⟩, ⟨"a", "blob", 1⟩])
          [⟨"b", "blob", 1⟩, ⟨"a", "blob", 1⟩])).map (fun e => e.path) = ["a", "b"] ∧
      (["b", "a"] : List String) ≠ ["a", "b"] := by
  refine ⟨?_, ?_, ?_⟩ <;> decide

/-- Claim C1 witness: the corrected statement evaluated on the
counterexample listing. -/
theorem c1_witness :
    contentPaths (buildFileList (fun _ => FetchOutcome.ok "x")
        (filterFiles ⟨1, [], []⟩ none
          [⟨"b", "blob", 1⟩, ⟨"a", "blob", 1⟩])) =
        (filterFiles ⟨1, [], []⟩ none
          [⟨"b", "blob", 1⟩, ⟨"a", "blob", 1⟩]).map (fun it => it.path) ∧
      (treeFileEntries (clientTreeList none
          (filterFiles ⟨1, [], []⟩ none [⟨"b", "blob", 1⟩, ⟨"a", "blob", 1⟩])
          [⟨"b", "blob", 1⟩, ⟨"a", "blob", 1⟩])).map (fun e => e.path) =
        sortStrings ((filterFiles ⟨1, [], []⟩ none
          [⟨"b", "blob", 1⟩, ⟨"a", "blob", 1⟩]).map (fun it => it.path)) :=
  c1_content_order ⟨1, [], []⟩ none (fun _ => FetchOutcome.ok "x")
    [⟨"b", "blob", 1⟩, ⟨"a", "blob", 1⟩] (by decide) (by decide)

/-- Every `some` result of `treeListEntry` carries the item's own path. -/
theorem treeListEntry_path {sp : Option String} {F : List GitTreeItem}
    {it : GitTreeItem} {e : TreeEntry}
    (h : treeListEntry sp F it = some e) : e.path = it.path := by
  unfold treeListEntry at h
  split at h
  · exact absurd h (by simp)
  · split at h
    · cases Option.some.inj h; rfl
    · split at h
      · cases Option.some.inj h; rfl
      · exact absurd h (by simp)

/-- A blob outside the filtered list yields no tree entry at all. -/
theorem treeListEntry_none (opts : IngestOptions) (sp : Option String)
    {items : List GitTreeItem}
    (hnd : (items.map (fun it => it.path)).Nodup)
    {b : GitTreeItem} (hb : b ∈ items) (hblob : b.type = "blob")
    (hbF : b ∉ filterFiles opts sp items) :
    treeListEntry sp (filterFiles opts sp items) b = none := by
  have hinj := List.inj_on_of_nodup_map hnd
  unfold treeListEntry
  by_cases h1 : (truthyStr sp && !(strStartsWith b.path (spStr sp))) = true
  · rw [if_pos h1]
  · rw [if_neg h1]
    have h2 : (b.type == "tree") = false := by rw [hblob]; rfl
    rw [if_neg (by simp [h2])]
    have h3 : ((filterFiles opts sp items).any (fun f => f.path == b.path)) = false := by
      cases hany : ((filterFiles opts sp items).any (fun f => f.path == b.path))
      · rfl
      · exfalso
        rw [List.any_eq_true] at hany
        obtain ⟨f, hfF, hfp⟩ := hany
        rw [beq_iff_eq] at hfp
        have hfi : f ∈ items := (List.mem_filter.mp hfF).1
        have : f = b := hinj hfi hb hfp
        subst this
        exact hbF hfF
    rw [if_neg (by simp [h3])]

/-- Every path of a content block comes from a filtered file whose
fetched content is nonempty. -/
theorem contentPaths_subset (fetch : String → FetchOutcome) :
    ∀ (F : List GitTreeItem) (p : String),
      p ∈ contentPaths (buildFileList fetch F) →
      ∃ f ∈ F, f.path = p ∧ (fetchRecord fetch f).content ≠ ""
  | [], p, h => absurd h (by simp [buildFileList, contentPaths])
  | it :: rest, p, h => by
    unfold buildFileList at h
    rw [List.map_cons] at h
    unfold contentPaths at h
    rw [List.mem_append] at h
    cases h with
    | inl h1 =>
      by_cases hc : (!(fetchRecord fetch it).isDirectory &&
          (fetchRecord fetch it).content != "") = true
      · rw [if_pos hc] at h1
        rw [List.mem_singleton] at h1
        refine ⟨it, List.mem_cons_self it rest, by rw [h1, fetchRecord_path], ?_⟩
        have := (Bool.and_eq_true _ _ |>.mp hc).2
        exact bne_iff_ne.mp this
      · rw [if_neg hc] at h1
        exact absurd h1 (by simp)
    | inr h2 =>
      obtain ⟨f, hf, hfp, hfc⟩ := contentPaths_subset fetch rest p
        (by unfold buildFileList; exact h2)
      exact ⟨f, List.mem_cons_of_mem _ hf, hfp, hfc⟩

/-- A filtered file with nonempty fetched content contributes a content
block named by its path. -/
theorem contentPaths_mem (fetch : String → FetchOutcome) :
    ∀ (F : List GitTreeItem) (b : GitTreeItem), b ∈ F →
      (fetchRecord fetch b).content ≠ "" →
      b.path ∈ contentPaths (buildFileList fetch F)
  | [], b, hb, _ => absurd hb (by simp)
  | it :: rest, b, hb, hc => by
    unfold buildFileList
    rw [List.map_cons]
    unfold contentPaths
    rw [List.mem_append]
    rcases List.mem_cons.mp hb with he | hm
    · subst he
      left
      rw [if_pos (by rw [fetchRecord_isDir]; simpa [bne_iff_ne] using hc)]
      simp [fetchRecord_path]
    · right
      have := contentPaths_mem fetch rest b hm hc
      unfold buildFileList at this
      exact this

/-- Claim C4 (corrected statement): a blob whose size exceeds
`maxFileSize` KB appears neither among the rendered tree entries nor as
a content block; a blob that passes all filters (`keepFile`, which
includes the size bound) always appears among the tree's file entries,
and appears as a content block exactly when its acquired content string
is nonempty — a passing file fetched as empty text is skipped by the
aggregator's truthiness check and appears only in the tree. -/
theorem c4_size_and_content_presence (opts : IngestOptions) (sp : Option String)
    (fetch : String → FetchOutcome) (items : List GitTreeItem)
    (hnd : (items.map (fun it => it.path)).Nodup)
    (b : GitTreeItem) (hb : b ∈ items) (hblob : b.type = "blob") :
    (opts.maxFileSize * 1024 < b.size →
        b.path ∉ (sortEntries (clientTreeList sp (filterFiles opts sp items) items)).map
            (fun e => e.path) ∧
        b.path ∉ contentPaths (buildFileList fetch (filterFiles opts sp items))) ∧
      (keepFile opts sp b = true →
        b.path ∈ (treeFileEntries (clientTreeList sp (filterFiles opts sp items) items)).map
            (fun e => e.path) ∧
        ((fetchRecord fetch b).content ≠ "" →
          b.path ∈ contentPaths (buildFileList fetch (filterFiles opts sp items))) ∧
        ((fetchRecord fetch b).content = "" →
          b.path ∉ contentPaths (buildFileList fetch (filterFiles opts sp items)))) := by
  have hinj := List.inj_on_of_nodup_map hnd
  constructor
  · intro hsize
    have hbF : b ∉ filterFiles opts sp items := by
      intro hmem
      have hkeep := (List.mem_filter.mp hmem).2
      unfold keepFile at hkeep
      simp only [Bool.and_eq_true, Bool.not_eq_true', decide_eq_false_iff_not] at hkeep
      exact hkeep.1.2 hsize
    constructor
    · intro hmemmap
      have hLmem : b.path ∈ (clientTreeList sp (filterFiles opts sp items) items).map
          (fun e => e.path) :=
        ((List.perm_insertionSort entryLE _).map (fun e => e.path)).mem_iff.mp hmemmap
      rw [List.mem_map] at hLmem
      obtain ⟨e, heL, hep⟩ := hLmem
      unfold clientTreeList at heL
      rw [List.mem_filterMap] at heL
      obtain ⟨it, hit, hsome⟩ := heL
      have hitp : it.path = b.path := (treeListEntry_path hsome).symm.trans hep
      have hite : it = b := hinj hit hb hitp
      subst hite
      rw [treeListEntry_none opts sp hnd hit hblob hbF] at hsome
      exact absurd hsome (by simp)
    · intro hcmem
      obtain ⟨f, hfF, hfp, -⟩ := contentPaths_subset fetch _ _ hcmem
      have hfi : f ∈ items := (List.mem_filter.mp hfF).1
      have : f = b := hinj hfi hb hfp
      subst this
      exact hbF hfF
  · intro hkeep
    have hbF : b ∈ filterFiles opts sp items := List.mem_filter.mpr ⟨hb, hkeep⟩
    refine ⟨?_, ?_, ?_⟩
    · rw [treeFilePaths_sorted opts sp hnd]
      refine (List.perm_insertionSort pathLe _).mem_iff.mpr ?_
      exact List.mem_map.mpr ⟨b, hbF, rfl⟩
    · intro hc
      exact contentPaths_mem fetch _ b hbF hc
    · intro hc hcmem
      obtain ⟨f, hfF, hfp, hfc⟩ := contentPaths_subset fetch _ _ hcmem
      have hfi : f ∈ items := (List.mem_filter.mp hfF).1
      have : f = b := hinj hfi hb hfp
      subst this
      exact hfc hc

/-- Claim C4 counterexample: the empty file `a.txt` (size 0, within the
1 KB bound, fetched as the empty string) appears as a tree file entry
but yields no content block, so it is not present "in both". -/
theorem c4_counterexample :
    (treeFileEntries (clientTreeList none
        (filterFiles ⟨1, [], []⟩ none [⟨"a.txt", "blob", 0⟩])
        [⟨"a.txt", "blob", 0⟩])).map (fun e => e.path) = ["a.txt"] ∧
      contentPaths (buildFileList (fun _ => FetchOutcome.ok "")
        (filterFiles ⟨1, [], []⟩ none [⟨"a.txt", "blob", 0⟩])) = [] := by
  refine ⟨?_, ?_⟩ <;> decide

/-- Claim C4 witness: the corrected statement evaluated on a listing
with an oversized blob and a small passing blob; the oversized one is in
neither output, the passing one is in both. -/
theorem c4_witness :
    ("big.bin" : String) ∉ (sortEntries (clientTreeList none
        (filterFiles ⟨1, [], []⟩ none
          [⟨"big.bin", "blob", 2000⟩, ⟨"ok.txt", "blob", 10⟩])
        [⟨"big.bin", "blob", 2000⟩, ⟨"ok.txt", "blob", 10⟩])).map (fun e => e.path) ∧
      ("big.bin" : String) ∉ contentPaths (buildFileList (fun _ => FetchOutcome.ok "hi")
        (filterFiles ⟨1, [], []⟩ none
          [⟨"big.bin", "blob", 2000⟩, ⟨"ok.txt", "blob", 10⟩])) ∧
      ("ok.txt" : String) ∈ (treeFileEntries (clientTreeList none
        (filterFiles ⟨1, [], []⟩ none
          [⟨"big.bin", "blob", 2000⟩, ⟨"ok.txt", "blob", 10⟩])
        [⟨"big.bin", "blob", 2000⟩, ⟨"ok.txt", "blob", 10⟩])).map (fun e => e.path) ∧
      ("ok.txt" : String) ∈ contentPaths (buildFileList (fun _ => FetchOutcome.ok "hi")
        (filterFiles ⟨1, [], []⟩ none
          [⟨"big.bin", "blob", 2000⟩, ⟨"ok.txt", "blob", 10⟩])) := by
  have hbig := (c4_size_and_content_presence ⟨1, [], []⟩ none (fun _ => FetchOutcome.ok "hi")
    [⟨"big.bin", "blob", 2000⟩, ⟨"ok.txt", "blob", 10⟩] (by decide)
    ⟨"big.bin", "blob", 2000⟩ (by decide) (by decide)).1 (by decide)
  have hok := (c4_size_and_content_presence ⟨1, [], []⟩ none (fun _ => FetchOutcome.ok "hi")
    [⟨"big.bin", "blob", 2000⟩, ⟨"ok.txt", "blob", 10⟩] (by decide)
    ⟨"ok.txt", "blob", 10⟩ (by decide) (by decide)).2 (by decide)
  exact ⟨hbig.1, hbig.2, hok.1, hok.2.1 (by decide)⟩

/-! ## Server acquisition routes

Native-clone route: `src/app/api/ingest/route.ts` lines 195-394.
Virtual-clone route: `src/unnamed/part_002` lines 95-300.
Browser virtual-FS strategy: `src/unnamed/part_004` lines 240-305.

URL parsing, `git clone`, the `ignore` npm package, and the
include-pattern regex enter as data/parameters; the filesystem produced
by the clone is a list of `FsNode`s whose file data is `some text` when
reading+decoding succeeds and `none` when it throws. -/

structure RepoInfo where
  owner : String
  repo : String
  provider : String
  host : String
deriving DecidableEq, Repr

structure FileRec where
  path : String
  content : String
  size : Nat
deriving DecidableEq, Repr

inductive FsNode where
  | file (name : String) (size : Nat) (data : Option String)
  | dir (name : String) (children : List FsNode)

/-- The record pushed for one file by `readDirRecursive` in `route.ts`
(lines 317-331): the decoded text, or the `[Binary file]` sentinel when
reading/decoding throws. -/
def routeProcessFile (relPath : String) (size : Nat) (decoded : Option String) :
    FileRec :=
  { path := relPath, content := decoded.getD "[Binary file]", size := size }

/-- Modelled from the browser virtual-FS strategy (`src/unnamed/part_004`
lines 286-304): same shape, but the decode-failure sentinel there is
`[Binary file - content not included]`. -/
def vfsProcessFile (relPath : String) (size : Nat) (decoded : Option String) :
    FileRec :=
  { path := relPath, content := decoded.getD "[Binary file - content not included]",
    size := size }

/-- `relativePath ? relativePath + '/' + name : name`. -/
def joinRel (relativePath name : String) : String :=
  if relativePath = "" then name else relativePath ++ "/" ++ name

mutual
/-- One entry step of `readDirRecursive` (`route.ts` lines 283-333):
skip paths starting `.git`, then the ignore predicate, then the include
predicate; recurse into directories; drop oversized files; push a tree
entry and a file record for the rest. -/
def walkNode (ig incOk : String → Bool) (maxKB : Nat) :
    FsNode → String → List TreeEntry × List FileRec
  | .file name size data, relParent =>
    let rel := joinRel relParent name
    if strStartsWith rel ".git" then ([], [])
    else if ig rel then ([], [])
    else if !incOk rel then ([], [])
    else if maxKB * 1024 < size then ([], [])
    else ([⟨rel, false⟩], [routeProcessFile rel size data])
  | .dir name children, relParent =>
    let rel := joinRel relParent name
    if strStartsWith rel ".git" then ([], [])
    else if ig rel then ([], [])
    else if !incOk rel then ([], [])
    else
      let sub := walkNodes ig incOk maxKB children rel
      (⟨rel, true⟩ :: sub.1, sub.2)

/-- The directory loop of `readDirRecursive`, in listing order. -/
def walkNodes (ig incOk : String → Bool) (maxKB : Nat) :
    List FsNode → String → List TreeEntry × List FileRec
  | [], _ => ([], [])
  | n :: rest, relParent =>
    let h := walkNode ig incOk maxKB n relParent
    let t := walkNodes ig incOk maxKB rest relParent
    (h.1 ++ t.1, h.2 ++ t.2)
end

/-- The `contentParts` loop of `route.ts` (lines 343-352): five parts
for every file record, unconditionally. -/
def routeContentParts : List FileRec → List String
  | [] => []
  | f :: rest =>
    [SEPARATOR, "File: " ++ f.path, SEPARATOR, f.content, ""] ++ routeContentParts rest

structure RouteOutput where
  tree : String
  content : String
deriving DecidableEq, Repr

inductive ApiResponse where
  | ok (result : RouteOutput)
  | err (status : Nat) (msg : String)
deriving DecidableEq, Repr

/-- The HTTP status of a response (`NextResponse.json` defaults to 200). -/
def statusOf : ApiResponse → Nat
  | .ok _ => 200
  | .err s _ => s

/-- Model of the POST handler of `route.ts` (lines 195-394): a parse
failure is a 400 before any network call; a clone failure is classified
by case-sensitive substring tests on the error message (401 for
`Authentication failed`/`access denied`, then 404 for
`not found`/`does not exist`, otherwise rethrown into the outer catch as
a 500); on success the repository is walked and the digest built — no
error path exists past the clone. -/
def postModel (maxKB : Nat) (ig incOk : String → Bool)
    (parsed : Option RepoInfo) (cloneResult : Except String (List FsNode)) :
    ApiResponse :=
  match parsed with
  | none => .err 400 "Invalid repository URL"
  | some info =>
    match cloneResult with
    | .error msg =>
      if strIncludes msg "Authentication failed" || strIncludes msg "access denied" then
        .err 401 "Authentication failed. Check your token and repository access."
      else if strIncludes msg "not found" || strIncludes msg "does not exist" then
        .err 404 "Repository not found. Check the URL and try again."
      else
        .err 500 msg
    | .ok fs =>
      let walked := walkNodes ig incOk maxKB fs ""
      .ok ⟨generateTree walked.1 info.repo, joinWith "\n" (routeContentParts walked.2)⟩

/-- Modelled from the virtual-clone route (`src/unnamed/part_002` lines
144-166): its clone-error classification uses the substrings `401`,
`403`, `authentication` for a 401 and `404`, `not found` for a 404. -/
def isoCloneErrorStatus (msg : String) : Nat :=
  if strIncludes msg "401" || strIncludes msg "403" || strIncludes msg "authentication" then
    401
  else if strIncludes msg "404" || strIncludes msg "not found" then 404
  else 500

/-- Claim C5 (corrected statement): a file whose bytes fail UTF-8
decoding is degraded to a binary-file sentinel and the request still
succeeds — but the sentinel is `[Binary file]` only in the server
strategies; the browser virtual-FS strategy substitutes
`[Binary file - content not included]`.  The success of the request is
structural: past a successful clone the walk is total, so the handler
returns an `ok` response whatever decode failures the filesystem holds. -/
theorem c5_decode_failure_sentinels (rel : String) (size maxKB : Nat)
    (ig incOk : String → Bool) (info : RepoInfo) (fs : List FsNode) :
    (routeProcessFile rel size none).content = "[Binary file]" ∧
      (vfsProcessFile rel size none).content = "[Binary file - content not included]" ∧
      ∃ out, postModel maxKB ig incOk (some info) (.ok fs) = .ok out :=
  ⟨rfl, rfl, ⟨_, rfl⟩⟩

/-- Claim C5 counterexample: in the browser virtual-FS strategy the
decode-failure content is `[Binary file - content not included]`, which
is not the claimed `[Binary file]` sentinel. -/
theorem c5_counterexample :
    (vfsProcessFile "a.bin" 3 none).content = "[Binary file - content not included]" ∧
      (vfsProcessFile "a.bin" 3 none).content ≠ "[Binary file]" :=
  ⟨rfl, by decide⟩

/-- Claim C6 (corrected statement): an invalid reference yields 400
before any network call; past that, each strategy only matches its own
case-sensitive indicator substrings.  The native-clone route returns 401
exactly when the clone error message contains `Authentication failed` or
`access denied` (it never checks `401`/`403`), then 404 exactly when it
contains `not found` or `does not exist`, and 500 otherwise; the
virtual-clone route returns 401 exactly for `401`/`403`/`authentication`,
then 404 exactly for `404`/`not found`, and 500 otherwise. -/
theorem c6_error_classification (maxKB : Nat) (ig incOk : String → Bool)
    (info : RepoInfo) (msg : String) (cr : Except String (List FsNode)) :
    postModel maxKB ig incOk none cr = .err 400 "Invalid repository URL" ∧
      (statusOf (postModel maxKB ig incOk (some info) (.error msg)) = 401 ↔
        (strIncludes msg "Authentication failed" || strIncludes msg "access denied")
          = true) ∧
      (statusOf (postModel maxKB ig incOk (some info) (.error msg)) = 404 ↔
        ((strIncludes msg "Authentication failed" || strIncludes msg "access denied")
            = false ∧
          (strIncludes msg "not found" || strIncludes msg "does not exist") = true)) ∧
      (statusOf (postModel maxKB ig incOk (some info) (.error msg)) = 500 ↔
        ((strIncludes msg "Authentication failed" || strIncludes msg "access denied")
            = false ∧
          (strIncludes msg "not found" || strIncludes msg "does not exist") = false)) ∧
      (isoCloneErrorStatus msg = 401 ↔
        (strIncludes msg "401" || strIncludes msg "403" ||
          strIncludes msg "authentication") = true) ∧
      (isoCloneErrorStatus msg = 404 ↔
        ((strIncludes msg "401" || strIncludes msg "403" ||
            strIncludes msg "authentication") = false ∧
          (strIncludes msg "404" || strIncludes msg "not found") = true)) ∧
      (isoCloneErrorStatus msg = 500 ↔
        ((strIncludes msg "401" || strIncludes msg "403" ||
            strIncludes msg "authentication") = false ∧
          (strIncludes msg "404" || strIncludes msg "not found") = false)) := by
  refine ⟨rfl, ?_, ?_, ?_, ?_, ?_, ?_⟩ <;>
    by_cases hA : (strIncludes msg "Authentication failed" ||
        strIncludes msg "access denied") = true <;>
    by_cases hN : (strIncludes msg "not found" ||
        strIncludes msg "does not exist") = true <;>
    by_cases hA2 : (strIncludes msg "401" || strIncludes msg "403" ||
        strIncludes msg "authentication") = true <;>
    by_cases hN2 : (strIncludes msg "404" || strIncludes msg "not found") = true <;>
    simp [postModel, statusOf, isoCloneErrorStatus, hA, hN, hA2, hN2]

/-- Claim C6 counterexample: the message `HTTP 401 Unauthorized`
contains the claimed 401 indicator `401`, yet the native-clone route
classifies it as a 500 (it only tests `Authentication failed` and
`access denied`). -/
theorem c6_counterexample :
    strIncludes "HTTP 401 Unauthorized" "401" = true ∧
      statusOf (postModel 1 (fun _ => false) (fun _ => true)
        (some ⟨"o", "r", "github", "github.com"⟩)
        (.error "HTTP 401 Unauthorized")) = 500 :=
  ⟨by decide, by decide⟩
